import Mathlib

/-! hareku/id3v2: batch editor of ID3v2 artist/album tags

A shallow embedding of `main.go`.  The program is a sequential loop around an
external tag codec (`github.com/bogem/id3v2/v2`), `filepath.Glob`, the `flag`
package and a cancellable `context.Context`.  These collaborators are not part
of the repository, so they enter the model as parameters:

* the codec and the glob expansion are the fields of `Codec`;
* the outcome of `flag.Parse` is a `Flags` value;
* the context is a function giving the value of `ctx.Err()` at each poll.

Every call the program makes to a collaborator is recorded in a trace of
`Event`s next to the filesystem state, so that "is never opened", "is saved
once" and similar properties can be stated.  Log output (`slog`, and with it
`setupLogger` and the reads of `tag.Version`, `tag.Artist` and `tag.Album`
made for the log lines) is not modelled: it goes to standard error only and
no decision depends on it.
-/

namespace Id3v2

/-! ## Go errors -/

/-- Go error values: `errors.New` / `fmt.Errorf` without `%w` build an
`errorString`; `fmt.Errorf` with one `%w` builds a `wrapError` holding the
formatted message and the wrapped error. -/
inductive Error where
  | errorString (s : String)
  | wrapError (msg : String) (err : Error)
deriving DecidableEq, Repr

/-- The `Error()` method of an error: its message. -/
def Error.message : Error → String
  | .errorString s => s
  | .wrapError msg _ => msg

/-- The `Unwrap()` method: the error a `wrapError` was built from. -/
def Error.Unwrap : Error → Option Error
  | .errorString _ => none
  | .wrapError _ err => some err

/-- The call `fmt.Errorf(pre + "%w", err)`: the message is `pre` followed by
the message of `err`, and `err` is kept inside. -/
def Errorf (pre : String) (err : Error) : Error :=
  .wrapError (pre ++ err.message) err

/-! ## Command-line flags -/

/-- The package-level flag variables after `flag.Parse()`, together with the
names of the flags that were set on the command line (the flags that
`flag.Visit` visits). -/
structure Flags where
  debugFlag : Bool
  dryFlag : Bool
  targetFlag : String
  artistFlag : String
  albumFlag : String
  actual : List String
deriving DecidableEq, Repr

/-- Source `isFlagSet`: visit every flag that was set, and remember whether
one of them has the given name. -/
def isFlagSet (fl : Flags) (name : String) : Bool :=
  fl.actual.foldl (fun found f => if f = name then true else found) false

/-! ## Collaborators and recorded calls -/

/-- One call to a collaborator. `ctxErr b` is a poll of `ctx.Err()`, `b`
telling whether it was non-nil; the tag operations carry the path of the file
the tag was opened from. -/
inductive Event where
  | glob (pattern : String)
  | ctxErr (cancelled : Bool)
  | openTag (path : String)
  | setArtist (path : String) (value : String)
  | setAlbum (path : String) (value : String)
  | save (path : String)
deriving DecidableEq, Repr

/-- The external operations the program uses, over a filesystem state `W` and
tag handles `Tag`: `filepath.Glob`, `id3v2.Open` with `Parse: true` (both only
read the filesystem), the getters and setters of a tag (in memory), and
`tag.Save`, which yields the filesystem it leaves behind and its error, if
any. -/
structure Codec (W Tag : Type) where
  Glob : W → String → Except Error (List String)
  Open : W → String → Except Error Tag
  Artist : Tag → String
  Album : Tag → String
  SetArtist : Tag → String → Tag
  SetAlbum : Tag → String → Tag
  Save : W → Tag → W × Option Error

/-- The filesystem and the calls made so far. -/
structure State (W : Type) where
  world : W
  trace : List Event

/-- Append one recorded call. -/
def State.record {W : Type} (s : State W) (e : Event) : State W :=
  { s with trace := s.trace ++ [e] }

variable {W Tag : Type}

/-! ## The program -/

/-- Source `processFile`, lines 88-95: the two guarded setters, applied to the
opened tag. -/
def applyOverrides (c : Codec W Tag) (fl : Flags) (target : String)
    (tag : Tag) (s : State W) : Tag × State W :=
  let r1 : Tag × State W :=
    if isFlagSet fl "artist" then
      (c.SetArtist tag fl.artistFlag, s.record (.setArtist target fl.artistFlag))
    else (tag, s)
  if isFlagSet fl "album" then
    (c.SetAlbum r1.1 fl.albumFlag, r1.2.record (.setAlbum target fl.albumFlag))
  else r1

/-- Source `processFile`: open and parse the tag, apply the overrides, and
save unless dry-run. The result is the returned error (`none` for `nil`). -/
def processFile (c : Codec W Tag) (fl : Flags) (target : String)
    (s : State W) : Option Error × State W :=
  match c.Open s.world target with
  | .error err => (some (Errorf "open file tag: " err), s.record (.openTag target))
  | .ok tag =>
    let r := applyOverrides c fl target tag (s.record (.openTag target))
    if fl.dryFlag then (none, r.2)
    else
      match c.Save r.2.world r.1 with
      | (w, some err) =>
        (some (Errorf "save file: " err), { world := w, trace := r.2.trace ++ [.save target] })
      | (w, none) => (none, { world := w, trace := r.2.trace ++ [.save target] })

/-- The `for _, file := range files` loop of source `run`; `k` is the index of
the next file, and `ctx k` the value of `ctx.Err()` polled before it (a
context's error is sticky, so the second call in `return ctx.Err()` yields the
same value as the one just tested). -/
def runLoop (c : Codec W Tag) (fl : Flags) (ctx : Nat → Option Error) :
    Nat → List String → State W → Option Error × State W
  | _, [], s => (none, s)
  | k, file :: rest, s =>
    match ctx k with
    | some e => (some e, s.record (.ctxErr true))
    | none =>
      match processFile c fl file (s.record (.ctxErr false)) with
      | (some err, s1) => (some (Errorf "process file: " err), s1)
      | (none, s1) => runLoop c fl ctx (k + 1) rest s1

/-- Source `run`, started on filesystem `w`. -/
def run (c : Codec W Tag) (fl : Flags) (ctx : Nat → Option Error) (w : W) :
    Option Error × State W :=
  if fl.targetFlag = "" then
    (some (.errorString "target is required"), { world := w, trace := [] })
  else
    match c.Glob w fl.targetFlag with
    | .error err =>
      (some (Errorf "list files: " err), { world := w, trace := [.glob fl.targetFlag] })
    | .ok files => runLoop c fl ctx 0 files { world := w, trace := [.glob fl.targetFlag] }

/-- Source `main`: the exit status, 1 when `run` returns an error. -/
def main (c : Codec W Tag) (fl : Flags) (ctx : Nat → Option Error) (w : W) : Nat :=
  match (run c fl ctx w).1 with
  | some _ => 1
  | none => 0

/-! ## Reading a trace -/

/-- The paths handed to `id3v2.Open`, in call order: the files the per-file
handler was started on. -/
def opened (tr : List Event) : List String :=
  tr.filterMap (fun e => match e with
    | .openTag p => some p
    | _ => none)

/-- The paths whose tag `Save` was called on, in call order. -/
def saved (tr : List Event) : List String :=
  tr.filterMap (fun e => match e with
    | .save p => some p
    | _ => none)

/-- The outcomes of the polls of `ctx.Err()`, in call order: `false` for nil,
`true` for a cancelled context. -/
def polls (tr : List Event) : List Bool :=
  tr.filterMap (fun e => match e with
    | .ctxErr b => some b
    | _ => none)

/-- The setter calls `processFile` makes on an opened tag. -/
def overrideTrace (fl : Flags) (target : String) : List Event :=
  (if isFlagSet fl "artist" then [Event.setArtist target fl.artistFlag] else []) ++
  (if isFlagSet fl "album" then [Event.setAlbum target fl.albumFlag] else [])

/-- The calls of a `processFile` that runs to its last line: open, the
setters, and the save unless dry-run. -/
def fileTrace (fl : Flags) (target : String) : List Event :=
  Event.openTag target :: (overrideTrace fl target ++
    (if fl.dryFlag then [] else [Event.save target]))

/-- The calls of one complete loop iteration: the poll of the context, found
nil, and then the file. -/
def iterTrace (fl : Flags) (target : String) : List Event :=
  Event.ctxErr false :: fileTrace fl target

/-- What the program relies on from the codec, `file t` being the path a tag
was opened from: the setters change the one frame they name, a successful save
is read back by the next open of that file, and a save leaves every other
file as it was. -/
structure Codec.Lawful (c : Codec W Tag) (file : Tag → String) : Prop where
  open_file : ∀ w p t, c.Open w p = .ok t → file t = p
  file_setArtist : ∀ t x, file (c.SetArtist t x) = file t
  file_setAlbum : ∀ t x, file (c.SetAlbum t x) = file t
  artist_setArtist : ∀ t x, c.Artist (c.SetArtist t x) = x
  album_setArtist : ∀ t x, c.Album (c.SetArtist t x) = c.Album t
  artist_setAlbum : ∀ t x, c.Artist (c.SetAlbum t x) = c.Artist t
  album_setAlbum : ∀ t x, c.Album (c.SetAlbum t x) = x
  save_open : ∀ w t, (c.Save w t).2 = none →
    ∃ t1, c.Open (c.Save w t).1 (file t) = .ok t1 ∧
      c.Artist t1 = c.Artist t ∧ c.Album t1 = c.Album t
  save_frame : ∀ w t p, p ≠ file t → c.Open (c.Save w t).1 p = c.Open w p

/-- The tag of file `f` reads the same in `w` as in the filesystem `w0` the
run started on. -/
def Untouched (c : Codec W Tag) (w0 w : W) (f : String) : Prop :=
  c.Open w f = c.Open w0 f

/-- In `w` the tag of file `f` opens with the requested artist, and with the
album it had in the filesystem `w0` the run started on when no album was
requested. -/
def Updated (c : Codec W Tag) (fl : Flags) (w0 w : W) (f : String) : Prop :=
  ∃ t t0, c.Open w f = .ok t ∧ c.Open w0 f = .ok t0 ∧ c.Artist t = fl.artistFlag ∧
    (isFlagSet fl "album" = false → c.Album t = c.Album t0)

/-! ## An in-memory codec

A small stand-in for the external collaborators, on which the statements below
are evaluated at concrete inputs: a filesystem is a list of files, each with a
path, its two text frames, and two switches that make opening or saving it
fail. -/

/-- One file of the in-memory filesystem. -/
structure MemFile where
  path : String
  corrupt : Bool
  readOnly : Bool
  artist : String
  album : String
deriving DecidableEq, Repr

/-- A parsed tag of the in-memory codec. -/
structure MemTag where
  path : String
  artist : String
  album : String
deriving DecidableEq, Repr

/-- The file `g` after a save of tag `t`: rewritten with the frames of `t`, as
a well-formed tag, when `g` is the file `t` was opened from. -/
def memUpdate (t : MemTag) (g : MemFile) : MemFile :=
  if g.path = t.path then { g with corrupt := false, artist := t.artist, album := t.album }
  else g

/-- Write the frames of `t` into the file it was opened from. -/
def memWrite (w : List MemFile) (t : MemTag) : List MemFile :=
  w.map (memUpdate t)

/-- Opening a file of the in-memory filesystem: a corrupt or absent file does
not open. -/
def memOpen (w : List MemFile) (p : String) : Except Error MemTag :=
  match w.find? (fun g => g.path = p) with
  | none => .error (.errorString "no such file or directory")
  | some g =>
    if g.corrupt then .error (.errorString "unsupported version of ID3 tag")
    else .ok { path := g.path, artist := g.artist, album := g.album }

/-- Saving a tag to the in-memory filesystem: a read-only or absent file does
not save, and the filesystem stays as it was. -/
def memSave (w : List MemFile) (t : MemTag) : List MemFile × Option Error :=
  match w.find? (fun g => g.path = t.path) with
  | none => (w, some (.errorString "no such file or directory"))
  | some g =>
    if g.readOnly then (w, some (.errorString "permission denied"))
    else (memWrite w t, none)

/-- The in-memory codec: the pattern `[` is malformed, `*` matches every file
and any other pattern the file of that name. -/
def memCodec : Codec (List MemFile) MemTag where
  Glob w pat :=
    if pat = "[" then .error (.errorString "syntax error in pattern")
    else .ok ((w.filter (fun g => pat = "*" || g.path = pat)).map (fun g => g.path))
  Open := memOpen
  Artist t := t.artist
  Album t := t.album
  SetArtist t x := { t with artist := x }
  SetAlbum t x := { t with album := x }
  Save := memSave

/-- A context that is never cancelled. -/
def ctxLive : Nat → Option Error := fun _ => none

/-- A context cancelled from poll `k` on (`context.Canceled`). -/
def ctxCancelledFrom (k : Nat) : Nat → Option Error :=
  fun j => if k ≤ j then some (.errorString "context canceled") else none

/-- Three files, the second of which has a tag that cannot be parsed. -/
def memThree : List MemFile :=
  [ { path := "a.mp3", corrupt := false, readOnly := false, artist := "Old A", album := "LP A" },
    { path := "b.mp3", corrupt := true, readOnly := false, artist := "", album := "" },
    { path := "c.mp3", corrupt := false, readOnly := false, artist := "Old C", album := "LP C" } ]

/-- Two well-formed files. -/
def memTwo : List MemFile :=
  [ { path := "a.mp3", corrupt := false, readOnly := false, artist := "Old A", album := "LP A" },
    { path := "b.mp3", corrupt := false, readOnly := false, artist := "Old B", album := "LP B" } ]

/-- The invocation `-target * -artist X`. -/
def flagsArtist (x : String) : Flags :=
  { debugFlag := false, dryFlag := false, targetFlag := "*", artistFlag := x, albumFlag := "",
    actual := ["artist", "target"] }

/-- The invocation `-target <pattern> -dry`. -/
def flagsDry (pattern : String) : Flags :=
  { debugFlag := false, dryFlag := true, targetFlag := pattern, artistFlag := "",
    albumFlag := "", actual := ["dry", "target"] }

/-- The invocation `-artist X -album Y -dry` with no `-target`. -/
def flagsNoTarget : Flags :=
  { debugFlag := false, dryFlag := true, targetFlag := "", artistFlag := "X",
    albumFlag := "Y", actual := ["album", "artist", "dry"] }

/-- The invocation `-target <pattern>` with no override. -/
def flagsPlain (pattern : String) : Flags :=
  { debugFlag := false, dryFlag := false, targetFlag := pattern, artistFlag := "",
    albumFlag := "", actual := ["target"] }

/-- The state `run` enters its loop in: the filesystem as found, and the glob
expansion as the only call made. -/
def loopStart (fl : Flags) (w : W) : State W :=
  { world := w, trace := [Event.glob fl.targetFlag] }

/-! ## Flags and traces: basic facts -/

theorem foldl_found (name : String) (l : List String) (b : Bool) :
    l.foldl (fun found f => if f = name then true else found) b = true ↔
      b = true ∨ name ∈ l := by
  induction l generalizing b with
  | nil => simp
  | cons x xs ih =>
    rw [List.foldl_cons, ih]
    by_cases hx : x = name
    · subst hx; simp
    · have hx2 : ¬ name = x := fun h => hx h.symm
      simp [hx, hx2]

theorem isFlagSet_iff (fl : Flags) (name : String) :
    isFlagSet fl name = true ↔ name ∈ fl.actual := by
  unfold isFlagSet
  rw [foldl_found]
  simp

theorem opened_append (a b : List Event) : opened (a ++ b) = opened a ++ opened b := by
  simp [opened, List.filterMap_append]

theorem saved_append (a b : List Event) : saved (a ++ b) = saved a ++ saved b := by
  simp [saved, List.filterMap_append]

theorem opened_overrideTrace (fl : Flags) (t : String) : opened (overrideTrace fl t) = [] := by
  unfold overrideTrace
  split <;> split <;> simp [opened]

theorem saved_overrideTrace (fl : Flags) (t : String) : saved (overrideTrace fl t) = [] := by
  unfold overrideTrace
  split <;> split <;> simp [saved]

theorem opened_fileTrace (fl : Flags) (t : String) : opened (fileTrace fl t) = [t] := by
  have h := opened_overrideTrace fl t
  unfold fileTrace
  rw [show ∀ (e : Event) (l : List Event), e :: l = [e] ++ l from fun _ _ => rfl,
    opened_append, opened_append, h]
  split <;> simp [opened]

theorem saved_fileTrace (fl : Flags) (t : String) :
    saved (fileTrace fl t) = if fl.dryFlag then [] else [t] := by
  have h := saved_overrideTrace fl t
  unfold fileTrace
  rw [show ∀ (e : Event) (l : List Event), e :: l = [e] ++ l from fun _ _ => rfl,
    saved_append, saved_append, h]
  split <;> simp [saved]

theorem opened_iterTrace (fl : Flags) (t : String) : opened (iterTrace fl t) = [t] := by
  have h := opened_fileTrace fl t
  unfold iterTrace
  rw [show ∀ (e : Event) (l : List Event), e :: l = [e] ++ l from fun _ _ => rfl,
    opened_append, h]
  simp [opened]

theorem saved_iterTrace (fl : Flags) (t : String) :
    saved (iterTrace fl t) = if fl.dryFlag then [] else [t] := by
  have h := saved_fileTrace fl t
  unfold iterTrace
  rw [show ∀ (e : Event) (l : List Event), e :: l = [e] ++ l from fun _ _ => rfl,
    saved_append, h]
  simp [saved]

theorem opened_bind_iterTrace (fl : Flags) (files : List String) :
    opened (files.flatMap (iterTrace fl)) = files := by
  induction files with
  | nil => rfl
  | cons f fs ih => rw [List.flatMap_cons, opened_append, ih, opened_iterTrace]; rfl

theorem saved_bind_iterTrace (fl : Flags) (files : List String) :
    saved (files.flatMap (iterTrace fl)) = if fl.dryFlag then [] else files := by
  induction files with
  | nil => simp [saved]
  | cons f fs ih =>
    rw [List.flatMap_cons, saved_append, ih, saved_iterTrace]
    split <;> simp

/-! ## The per-file handler -/

theorem applyOverrides_world (c : Codec W Tag) (fl : Flags) (target : String) (tag : Tag)
    (s : State W) : (applyOverrides c fl target tag s).2.world = s.world := by
  unfold applyOverrides
  split <;> split <;> rfl

theorem applyOverrides_trace (c : Codec W Tag) (fl : Flags) (target : String) (tag : Tag)
    (s : State W) :
    (applyOverrides c fl target tag s).2.trace = s.trace ++ overrideTrace fl target := by
  unfold applyOverrides overrideTrace
  split <;> split <;> simp [State.record]

/-- The tag `applyOverrides` hands on: each setter applied exactly when its
flag is among the flags that were set. -/
theorem applyOverrides_tag (c : Codec W Tag) (fl : Flags) (target : String) (tag : Tag)
    (s : State W) :
    (applyOverrides c fl target tag s).1 =
      (if isFlagSet fl "album" then
        c.SetAlbum (if isFlagSet fl "artist" then c.SetArtist tag fl.artistFlag else tag)
          fl.albumFlag
      else (if isFlagSet fl "artist" then c.SetArtist tag fl.artistFlag else tag)) := by
  unfold applyOverrides
  split <;> split <;> rfl

theorem processFile_open_error (c : Codec W Tag) (fl : Flags) (target : String) (s : State W)
    (err : Error) (h : c.Open s.world target = .error err) :
    processFile c fl target s =
      (some (Errorf "open file tag: " err), s.record (.openTag target)) := by
  unfold processFile
  rw [h]

theorem processFile_dry (c : Codec W Tag) (fl : Flags) (target : String) (s : State W)
    (tag : Tag) (h : c.Open s.world target = .ok tag) (hd : fl.dryFlag = true) :
    processFile c fl target s =
      (none, (applyOverrides c fl target tag (s.record (.openTag target))).2) := by
  unfold processFile
  rw [h]
  simp [hd]

theorem processFile_save (c : Codec W Tag) (fl : Flags) (target : String) (s : State W)
    (tag : Tag) (h : c.Open s.world target = .ok tag) (hd : fl.dryFlag = false) :
    processFile c fl target s =
      (((c.Save s.world (applyOverrides c fl target tag (s.record (.openTag target))).1).2).map
          (Errorf "save file: "),
        { world := (c.Save s.world
            (applyOverrides c fl target tag (s.record (.openTag target))).1).1,
          trace := s.trace ++ fileTrace fl target }) := by
  unfold processFile
  rw [h]
  simp only [hd, applyOverrides_world, applyOverrides_trace, State.record, fileTrace]
  rcases hs : c.Save s.world (applyOverrides c fl target tag
      { world := s.world, trace := s.trace ++ [Event.openTag target] }).1 with ⟨w1, _ | e⟩ <;>
    simp [hs]

theorem processFile_ok_trace (c : Codec W Tag) (fl : Flags) (target : String) (s s1 : State W)
    (h : processFile c fl target s = (none, s1)) :
    s1.trace = s.trace ++ fileTrace fl target := by
  rcases ho : c.Open s.world target with err | tag
  · rw [processFile_open_error c fl target s err ho] at h
    simp at h
  · cases hd : fl.dryFlag
    · rw [processFile_save c fl target s tag ho hd] at h
      have h2 := congrArg Prod.snd h
      simp only at h2
      rw [← h2]
    · rw [processFile_dry c fl target s tag ho hd] at h
      have h2 := congrArg Prod.snd h
      simp only at h2
      rw [← h2, applyOverrides_trace]
      simp [State.record, fileTrace, hd]

theorem processFile_open_ok_trace (c : Codec W Tag) (fl : Flags) (target : String)
    (s : State W) (tag : Tag) (ho : c.Open s.world target = .ok tag) :
    (processFile c fl target s).2.trace = s.trace ++ fileTrace fl target := by
  cases hd : fl.dryFlag
  · rw [processFile_save c fl target s tag ho hd]
  · rw [processFile_dry c fl target s tag ho hd, applyOverrides_trace]
    simp [State.record, fileTrace, hd]

/-- Every call of `processFile` starts with exactly one `Open` of its file. -/
theorem processFile_opened (c : Codec W Tag) (fl : Flags) (target : String) (s : State W) :
    opened (processFile c fl target s).2.trace = opened s.trace ++ [target] := by
  rcases ho : c.Open s.world target with err | tag
  · rw [processFile_open_error c fl target s err ho]
    simp [State.record, opened]
  · cases hd : fl.dryFlag
    · rw [processFile_save c fl target s tag ho hd]
      simp only [opened_append, opened_fileTrace]
    · rw [processFile_dry c fl target s tag ho hd, applyOverrides_trace]
      simp only [State.record, opened_append, opened_overrideTrace]
      simp [opened]

theorem processFile_dry_world (c : Codec W Tag) (fl : Flags) (target : String) (s : State W)
    (hd : fl.dryFlag = true) :
    (processFile c fl target s).2.world = s.world ∧
      saved (processFile c fl target s).2.trace = saved s.trace := by
  rcases ho : c.Open s.world target with err | tag
  · rw [processFile_open_error c fl target s err ho]
    simp [State.record, saved]
  · rw [processFile_dry c fl target s tag ho hd, applyOverrides_world, applyOverrides_trace]
    simp only [State.record, saved_append, saved_overrideTrace]
    simp [saved]

/-! ## The loop -/

theorem runLoop_cons_cancelled (c : Codec W Tag) (fl : Flags) (ctx : Nat → Option Error)
    (k : Nat) (file : String) (rest : List String) (s : State W) (e : Error)
    (h : ctx k = some e) :
    runLoop c fl ctx k (file :: rest) s = (some e, s.record (.ctxErr true)) := by
  rw [runLoop, h]

theorem runLoop_cons_failed (c : Codec W Tag) (fl : Flags) (ctx : Nat → Option Error)
    (k : Nat) (file : String) (rest : List String) (s s1 : State W) (err : Error)
    (h : ctx k = none)
    (hp : processFile c fl file (s.record (.ctxErr false)) = (some err, s1)) :
    runLoop c fl ctx k (file :: rest) s = (some (Errorf "process file: " err), s1) := by
  rw [runLoop, h]
  simp only
  rw [hp]

theorem runLoop_cons_ok (c : Codec W Tag) (fl : Flags) (ctx : Nat → Option Error)
    (k : Nat) (file : String) (rest : List String) (s s1 : State W)
    (h : ctx k = none)
    (hp : processFile c fl file (s.record (.ctxErr false)) = (none, s1)) :
    runLoop c fl ctx k (file :: rest) s = runLoop c fl ctx (k + 1) rest s1 := by
  rw [runLoop, h]
  simp only
  rw [hp]

/-- A loop that returns nil polled the context before each file, found it nil
each time, and ran `processFile` to its end on each file in turn. -/
theorem runLoop_ok (c : Codec W Tag) (fl : Flags) (ctx : Nat → Option Error)
    (files : List String) (k : Nat) (s s1 : State W)
    (h : runLoop c fl ctx k files s = (none, s1)) :
    s1.trace = s.trace ++ files.flatMap (iterTrace fl) ∧
      ∀ j, j < files.length → ctx (k + j) = none := by
  induction files generalizing k s with
  | nil =>
    rw [runLoop] at h
    have h2 := congrArg Prod.snd h
    simp only at h2
    subst h2
    simp
  | cons f fs ih =>
    rcases hc : ctx k with _ | e
    · rcases hp : processFile c fl f (s.record (.ctxErr false)) with ⟨_ | err, s2⟩
      · rw [runLoop_cons_ok c fl ctx k f fs s s2 hc hp] at h
        obtain ⟨ht, hj⟩ := ih (k + 1) s2 h
        have h2 := processFile_ok_trace c fl f _ s2 hp
        constructor
        · rw [ht, h2]
          simp [State.record, iterTrace]
        · intro j hjlt
          cases j with
          | zero => simpa using hc
          | succ j =>
            have := hj j (by simpa using hjlt)
            rw [← this]
            congr 1
            omega
      · rw [runLoop_cons_failed c fl ctx k f fs s s2 err hc hp] at h
        simp at h
    · rw [runLoop_cons_cancelled c fl ctx k f fs s e hc] at h
      simp at h

/-- Once the loop over the first files returns nil, the loop over the whole
list goes on with the remaining files from the state reached. -/
theorem runLoop_append_ok (c : Codec W Tag) (fl : Flags) (ctx : Nat → Option Error)
    (xs ys : List String) (k : Nat) (s s1 : State W)
    (h : runLoop c fl ctx k xs s = (none, s1)) :
    runLoop c fl ctx k (xs ++ ys) s = runLoop c fl ctx (k + xs.length) ys s1 := by
  induction xs generalizing k s with
  | nil =>
    rw [runLoop] at h
    have h2 := congrArg Prod.snd h
    simp only at h2
    subst h2
    simp
  | cons f fs ih =>
    rcases hc : ctx k with _ | e
    · rcases hp : processFile c fl f (s.record (.ctxErr false)) with ⟨_ | err, s2⟩
      · rw [runLoop_cons_ok c fl ctx k f fs s s2 hc hp] at h
        rw [List.cons_append, runLoop_cons_ok c fl ctx k f (fs ++ ys) s s2 hc hp,
          ih (k + 1) s2 h]
        congr 1
        simp only [List.length_cons]
        omega
      · rw [runLoop_cons_failed c fl ctx k f fs s s2 err hc hp] at h
        simp at h
    · rw [runLoop_cons_cancelled c fl ctx k f fs s e hc] at h
      simp at h

/-- The files the loop starts `processFile` on are the first `n` of its list,
and all of them when it returns nil. -/
theorem runLoop_opened (c : Codec W Tag) (fl : Flags) (ctx : Nat → Option Error)
    (files : List String) (k : Nat) (s : State W) :
    ∃ n, n ≤ files.length ∧
      opened (runLoop c fl ctx k files s).2.trace = opened s.trace ++ files.take n ∧
      ((runLoop c fl ctx k files s).1 = none → n = files.length) := by
  induction files generalizing k s with
  | nil => exact ⟨0, by simp [runLoop]⟩
  | cons f fs ih =>
    rcases hc : ctx k with _ | e
    · have ho := processFile_opened c fl f (s.record (.ctxErr false))
      rcases hp : processFile c fl f (s.record (.ctxErr false)) with ⟨_ | err, s2⟩
      · rw [runLoop_cons_ok c fl ctx k f fs s s2 hc hp]
        obtain ⟨n, hn, hop, hall⟩ := ih (k + 1) s2
        rw [hp] at ho
        simp only [State.record, opened_append] at ho
        refine ⟨n + 1, by simpa using hn, ?_, ?_⟩
        · rw [hop, ho]
          simp [opened]
        · intro h
          simpa using hall h
      · rw [runLoop_cons_failed c fl ctx k f fs s s2 err hc hp]
        rw [hp] at ho
        simp only [State.record, opened_append] at ho
        refine ⟨1, by simp, ?_, ?_⟩
        · simp only
          rw [ho]
          simp [opened]
        · intro h
          simp at h
    · rw [runLoop_cons_cancelled c fl ctx k f fs s e hc]
      refine ⟨0, by simp, ?_, ?_⟩
      · simp [State.record, opened_append, opened]
      · intro h
        simp at h

theorem runLoop_dry_world (c : Codec W Tag) (fl : Flags) (ctx : Nat → Option Error)
    (files : List String) (k : Nat) (s : State W) (hd : fl.dryFlag = true) :
    (runLoop c fl ctx k files s).2.world = s.world ∧
      saved (runLoop c fl ctx k files s).2.trace = saved s.trace := by
  induction files generalizing k s with
  | nil => simp [runLoop]
  | cons f fs ih =>
    rcases hc : ctx k with _ | e
    · have hw := processFile_dry_world c fl f (s.record (.ctxErr false)) hd
      rcases hp : processFile c fl f (s.record (.ctxErr false)) with ⟨_ | err, s2⟩
      · rw [runLoop_cons_ok c fl ctx k f fs s s2 hc hp]
        rw [hp] at hw
        obtain ⟨h1, h2⟩ := ih (k + 1) s2
        rw [h1, h2, hw.1, hw.2]
        simp [State.record, saved_append, saved]
      · rw [runLoop_cons_failed c fl ctx k f fs s s2 err hc hp]
        rw [hp] at hw
        simp only
        rw [hw.1, hw.2]
        simp [State.record, saved_append, saved]
    · rw [runLoop_cons_cancelled c fl ctx k f fs s e hc]
      simp [State.record, saved_append, saved]

theorem run_of_glob (c : Codec W Tag) (fl : Flags) (ctx : Nat → Option Error) (w : W)
    (files : List String) (ht : fl.targetFlag ≠ "")
    (hg : c.Glob w fl.targetFlag = .ok files) :
    run c fl ctx w = runLoop c fl ctx 0 files (loopStart fl w) := by
  unfold run loopStart
  rw [if_neg ht, hg]

theorem run_of_empty (c : Codec W Tag) (fl : Flags) (ctx : Nat → Option Error) (w : W)
    (h : fl.targetFlag = "") :
    run c fl ctx w =
      (some (Error.errorString "target is required"), { world := w, trace := [] }) := by
  unfold run
  rw [if_pos h]

/-! ## Empty target, dry-run, empty match -/

/-- C1: when the target pattern is the empty string, `run` returns the error
"target is required" and makes no call at all to a collaborator (no glob
expansion, no open, no save), whatever the other flags and the state of the
context; the filesystem is left as it was. -/
theorem run_empty_target (c : Codec W Tag) (fl : Flags) (ctx : Nat → Option Error) (w : W)
    (h : fl.targetFlag = "") :
    (run c fl ctx w).1 = some (Error.errorString "target is required") ∧
      (run c fl ctx w).2.trace = [] ∧ (run c fl ctx w).2.world = w := by
  rw [run_of_empty c fl ctx w h]
  exact ⟨rfl, rfl, rfl⟩

theorem run_empty_target_witness :
    flagsNoTarget.targetFlag = "" ∧
      (run memCodec flagsNoTarget (ctxCancelledFrom 0) memTwo).1 =
        some (Error.errorString "target is required") ∧
      (run memCodec flagsNoTarget (ctxCancelledFrom 0) memTwo).2.trace = [] ∧
      (run memCodec flagsNoTarget (ctxCancelledFrom 0) memTwo).2.world = memTwo :=
  ⟨rfl, run_empty_target memCodec flagsNoTarget (ctxCancelledFrom 0) memTwo rfl⟩

/-- C2: with dry-run enabled, a run leaves the filesystem exactly as it found
it and never calls the codec's save, for every codec (hence every file list
and initial filesystem), every override flags and every context; the same
holds of each call of `processFile`, which on a tag that opens returns nil
right after the in-memory setters. -/
theorem dry_run_saves_nothing (c : Codec W Tag) (fl : Flags) (ctx : Nat → Option Error) (w : W)
    (hd : fl.dryFlag = true) :
    (run c fl ctx w).2.world = w ∧ saved (run c fl ctx w).2.trace = [] ∧
      (∀ target s, (processFile c fl target s).2.world = s.world ∧
        saved (processFile c fl target s).2.trace = saved s.trace) ∧
      (∀ target s tag, c.Open s.world target = .ok tag →
        processFile c fl target s =
          (none, (applyOverrides c fl target tag (s.record (.openTag target))).2)) := by
  refine ⟨?_, ?_, fun target s => processFile_dry_world c fl target s hd,
    fun target s tag ho => processFile_dry c fl target s tag ho hd⟩
  · unfold run
    split
    · rfl
    · split
      · rfl
      · exact (runLoop_dry_world c fl ctx _ 0 _ hd).1
  · unfold run
    split
    · rfl
    · split
      · rfl
      · rw [(runLoop_dry_world c fl ctx _ 0 _ hd).2]
        rfl

theorem dry_run_saves_nothing_witness :
    (flagsDry "*").dryFlag = true ∧
      (run memCodec (flagsDry "*") ctxLive memTwo).2.world = memTwo ∧
      saved (run memCodec (flagsDry "*") ctxLive memTwo).2.trace = [] :=
  ⟨rfl, (dry_run_saves_nothing memCodec (flagsDry "*") ctxLive memTwo rfl).1,
    (dry_run_saves_nothing memCodec (flagsDry "*") ctxLive memTwo rfl).2.1⟩

/-- C7: when the target is non-empty and its glob expansion succeeds with no
file, `run` returns nil, its only call is the glob expansion (no poll of the
context, no open, no setter, no save) and the filesystem is as it was,
whatever the flags and the context. -/
theorem run_no_match (c : Codec W Tag) (fl : Flags) (ctx : Nat → Option Error) (w : W)
    (ht : fl.targetFlag ≠ "") (hg : c.Glob w fl.targetFlag = .ok []) :
    run c fl ctx w = (none, { world := w, trace := [Event.glob fl.targetFlag] }) := by
  rw [run_of_glob c fl ctx w [] ht hg]
  rfl

theorem run_no_match_witness :
    (flagsArtist "X").targetFlag ≠ "" ∧
      memCodec.Glob [] (flagsArtist "X").targetFlag = .ok [] ∧
      run memCodec (flagsArtist "X") (ctxCancelledFrom 0) [] =
        (none, { world := [], trace := [Event.glob "*"] }) :=
  ⟨by decide, rfl, run_no_match memCodec (flagsArtist "X") (ctxCancelledFrom 0) []
    (by decide) rfl⟩

/-! ## Order of processing -/

/-- C8: the files handed to `processFile` (the paths of the `Open` calls, in
call order) are the first `n` entries of the glob-expanded list, in the same
order and each position once; when `run` returns nil they are the whole
list. -/
theorem handled_is_initial_segment (c : Codec W Tag) (fl : Flags) (ctx : Nat → Option Error)
    (w : W) (files : List String) (hg : c.Glob w fl.targetFlag = .ok files) :
    ∃ n, n ≤ files.length ∧ opened (run c fl ctx w).2.trace = files.take n ∧
      ((run c fl ctx w).1 = none → n = files.length) := by
  by_cases ht : fl.targetFlag = ""
  · refine ⟨0, Nat.zero_le _, ?_, ?_⟩
    · rw [run_of_empty c fl ctx w ht]
      rfl
    · intro h
      rw [run_of_empty c fl ctx w ht] at h
      simp at h
  · rw [run_of_glob c fl ctx w files ht hg]
    obtain ⟨n, hn, hop, hall⟩ := runLoop_opened c fl ctx files 0 (loopStart fl w)
    refine ⟨n, hn, ?_, hall⟩
    rw [hop]
    simp [loopStart, opened]

theorem handled_is_initial_segment_witness :
    memCodec.Glob memThree (flagsArtist "X").targetFlag = .ok ["a.mp3", "b.mp3", "c.mp3"] ∧
      ∃ n, n ≤ ["a.mp3", "b.mp3", "c.mp3"].length ∧
        opened (run memCodec (flagsArtist "X") ctxLive memThree).2.trace =
          ["a.mp3", "b.mp3", "c.mp3"].take n ∧
        ((run memCodec (flagsArtist "X") ctxLive memThree).1 = none →
          n = ["a.mp3", "b.mp3", "c.mp3"].length) :=
  ⟨rfl, handled_is_initial_segment memCodec (flagsArtist "X") ctxLive memThree
    ["a.mp3", "b.mp3", "c.mp3"] rfl⟩

/-! ## Save calls -/

theorem processFile_saved (c : Codec W Tag) (fl : Flags) (target : String) (s : State W)
    (tag : Tag) (ho : c.Open s.world target = .ok tag) (hd : fl.dryFlag = false) :
    saved (processFile c fl target s).2.trace = saved s.trace ++ [target] := by
  rw [processFile_save c fl target s tag ho hd]
  simp only [saved_append, saved_fileTrace, hd]
  simp

theorem run_ok_trace (c : Codec W Tag) (fl : Flags) (ctx : Nat → Option Error) (w : W)
    (files : List String) (hg : c.Glob w fl.targetFlag = .ok files)
    (hr : (run c fl ctx w).1 = none) :
    (run c fl ctx w).2.trace = Event.glob fl.targetFlag :: files.flatMap (iterTrace fl) := by
  by_cases ht : fl.targetFlag = ""
  · rw [run_of_empty c fl ctx w ht] at hr
    simp at hr
  · rw [run_of_glob c fl ctx w files ht hg] at hr ⊢
    have h := (runLoop_ok c fl ctx files 0 (loopStart fl w)
      (runLoop c fl ctx 0 files (loopStart fl w)).2 (Prod.ext hr rfl)).1
    rw [h]
    rfl

/-- C10: on a file whose tag opens, with dry-run off, `processFile` calls the
codec's save exactly once, whatever the override flags (also with none of
them set); and in a run that returns nil the save calls are one per matched
file, in order, when dry-run is off, and none when it is on. -/
theorem save_called_once_per_file (c : Codec W Tag) (fl : Flags) (ctx : Nat → Option Error)
    (w : W) :
    (∀ target s tag, c.Open s.world target = .ok tag → fl.dryFlag = false →
      saved (processFile c fl target s).2.trace = saved s.trace ++ [target]) ∧
    (∀ files, c.Glob w fl.targetFlag = .ok files → (run c fl ctx w).1 = none →
      saved (run c fl ctx w).2.trace = (if fl.dryFlag then [] else files) ∧
      (saved (run c fl ctx w).2.trace).length = (if fl.dryFlag then 0 else files.length)) := by
  refine ⟨fun target s tag ho hd => processFile_saved c fl target s tag ho hd, ?_⟩
  intro files hg hr
  have h : saved (run c fl ctx w).2.trace = (if fl.dryFlag then [] else files) := by
    rw [run_ok_trace c fl ctx w files hg hr,
      show ∀ (e : Event) (l : List Event), e :: l = [e] ++ l from fun _ _ => rfl,
      saved_append, saved_bind_iterTrace]
    simp [saved]
  refine ⟨h, ?_⟩
  rw [h]
  split <;> rfl

theorem save_called_once_per_file_witness :
    saved (processFile memCodec (flagsPlain "*") "a.mp3" (loopStart (flagsPlain "*") memTwo)).2.trace
        = ["a.mp3"] ∧
      saved (run memCodec (flagsPlain "*") ctxLive memTwo).2.trace = ["a.mp3", "b.mp3"] ∧
      (saved (run memCodec (flagsPlain "*") ctxLive memTwo).2.trace).length = 2 :=
  ⟨(save_called_once_per_file memCodec (flagsPlain "*") ctxLive memTwo).1 "a.mp3"
      (loopStart (flagsPlain "*") memTwo) ⟨"a.mp3", "Old A", "LP A"⟩ rfl rfl,
    (save_called_once_per_file memCodec (flagsPlain "*") ctxLive memTwo).2
      ["a.mp3", "b.mp3"] rfl rfl⟩

/-! ## First failure and cancellation -/

theorem processFile_error (c : Codec W Tag) (fl : Flags) (target : String) (s s2 : State W)
    (err : Error) (h : processFile c fl target s = (some err, s2)) :
    (∃ o, c.Open s.world target = .error o ∧ err = Errorf "open file tag: " o ∧
      s2 = s.record (.openTag target)) ∨
    (∃ tag sv, c.Open s.world target = .ok tag ∧ fl.dryFlag = false ∧
      (c.Save s.world (applyOverrides c fl target tag (s.record (.openTag target))).1).2
        = some sv ∧
      err = Errorf "save file: " sv ∧ s2.trace = s.trace ++ fileTrace fl target) := by
  rcases ho : c.Open s.world target with o | tag
  · left
    rw [processFile_open_error c fl target s o ho] at h
    refine ⟨o, rfl, ?_, ?_⟩
    · have := congrArg Prod.fst h
      simp only [Option.some.injEq] at this
      exact this.symm
    · exact (congrArg Prod.snd h).symm
  · right
    cases hd : fl.dryFlag
    · rw [processFile_save c fl target s tag ho hd] at h
      have h1 := congrArg Prod.fst h
      have h2 := congrArg Prod.snd h
      simp only at h1 h2
      rcases hs : (c.Save s.world
        (applyOverrides c fl target tag (s.record (.openTag target))).1).2 with _ | sv
      · rw [hs] at h1
        simp at h1
      · rw [hs] at h1
        simp only [Option.map_some', Option.some.injEq] at h1
        exact ⟨tag, sv, rfl, rfl, hs, h1.symm, by rw [← h2]⟩
    · rw [processFile_dry c fl target s tag ho hd] at h
      simp at h

theorem processFile_frame (c : Codec W Tag) (file : Tag → String) (hl : c.Lawful file)
    (fl : Flags) (g : String) (s : State W) (p : String) (hp : p ≠ g) :
    c.Open (processFile c fl g s).2.world p = c.Open s.world p := by
  rcases ho : c.Open s.world g with o | tg
  · rw [processFile_open_error c fl g s o ho]
    rfl
  · cases hd : fl.dryFlag
    · rw [processFile_save c fl g s tg ho hd]
      simp only
      apply hl.save_frame
      have hfile : file (applyOverrides c fl g tg (s.record (.openTag g))).1 = file tg := by
        rw [applyOverrides_tag]
        split <;> split <;> simp [hl.file_setArtist, hl.file_setAlbum]
      rw [hfile, hl.open_file _ _ _ ho]
      exact hp
    · rw [processFile_dry c fl g s tg ho hd, applyOverrides_world]
      rfl

/-- Whatever its outcome, the loop leaves every file outside its list reading
as before. -/
theorem runLoop_frame (c : Codec W Tag) (file : Tag → String) (hl : c.Lawful file)
    (fl : Flags) (ctx : Nat → Option Error) (files : List String) (k : Nat) (s : State W)
    (p : String) (hp : p ∉ files) :
    c.Open (runLoop c fl ctx k files s).2.world p = c.Open s.world p := by
  induction files generalizing k s with
  | nil => rfl
  | cons g gs ih =>
    have hpg : p ≠ g := fun h => hp (by rw [h]; exact List.mem_cons_self _ _)
    have hpgs : p ∉ gs := fun h => hp (List.mem_cons_of_mem _ h)
    have hfr := processFile_frame c file hl fl g (s.record (.ctxErr false)) p hpg
    rcases hc : ctx k with _ | e
    · rcases hpf : processFile c fl g (s.record (.ctxErr false)) with ⟨_ | err, s2⟩
      · rw [runLoop_cons_ok c fl ctx k g gs s s2 hc hpf, ih (k + 1) s2 hpgs]
        rw [hpf] at hfr
        exact hfr
      · rw [runLoop_cons_failed c fl ctx k g gs s s2 err hc hpf]
        rw [hpf] at hfr
        exact hfr
    · rw [runLoop_cons_cancelled c fl ctx k g gs s e hc]
      rfl

/-- C5: when no cancellation occurs and the file at index `pre.length` is the
first whose processing fails (the loop over the files `pre` before it returns
nil, and `processFile` on it returns an error), `run` returns that error
wrapped as a file-processing error; every file before it was polled for,
opened, given the requested setters and saved unless dry-run; the `Open`
calls of the run are exactly those files and the failing one, and no save is
called on any later position: the failing file either did not open, or its
save, the last call of the run, failed. Over a codec that keeps the codec
laws, every file other than those reads afterwards as it did before the
run. -/
theorem first_failure_halts (c : Codec W Tag) (fl : Flags) (ctx : Nat → Option Error) (w : W)
    (pre : List String) (f : String) (post : List String) (s1 s2 : State W) (err : Error)
    (ht : fl.targetFlag ≠ "")
    (hg : c.Glob w fl.targetFlag = .ok (pre ++ f :: post))
    (hc : ∀ j, ctx j = none)
    (hpre : runLoop c fl ctx 0 pre (loopStart fl w) = (none, s1))
    (hf : processFile c fl f (s1.record (.ctxErr false)) = (some err, s2)) :
    run c fl ctx w = (some (Errorf "process file: " err), s2) ∧
      s1.trace = Event.glob fl.targetFlag :: pre.flatMap (iterTrace fl) ∧
      opened s2.trace = pre ++ [f] ∧
      ((∃ o, c.Open s1.world f = .error o ∧ err = Errorf "open file tag: " o ∧
          s2.world = s1.world ∧
          s2.trace = s1.trace ++ [Event.ctxErr false, Event.openTag f] ∧
          saved s2.trace = (if fl.dryFlag then [] else pre)) ∨
        (∃ sv, fl.dryFlag = false ∧ err = Errorf "save file: " sv ∧
          s2.trace = s1.trace ++ iterTrace fl f ∧ saved s2.trace = pre ++ [f])) ∧
      (∀ file : Tag → String, c.Lawful file →
        ∀ p, p ∉ pre → p ≠ f → c.Open s2.world p = c.Open w p) := by
  have hs1 : s1.trace = Event.glob fl.targetFlag :: pre.flatMap (iterTrace fl) := by
    rw [(runLoop_ok c fl ctx pre 0 (loopStart fl w) s1 hpre).1]
    rfl
  have hsv1 : saved s1.trace = (if fl.dryFlag then [] else pre) := by
    rw [hs1, show ∀ (e : Event) (l : List Event), e :: l = [e] ++ l from fun _ _ => rfl,
      saved_append, saved_bind_iterTrace]
    simp [saved]
  have hop1 : opened s1.trace = pre := by
    rw [hs1, show ∀ (e : Event) (l : List Event), e :: l = [e] ++ l from fun _ _ => rfl,
      opened_append, opened_bind_iterTrace]
    simp [opened]
  refine ⟨?_, hs1, ?_, ?_, ?_⟩
  rotate_left 3
  · intro file hl p hp hpf
    have h1 := runLoop_frame c file hl fl ctx pre 0 (loopStart fl w) p hp
    have h2 := processFile_frame c file hl fl f (s1.record (.ctxErr false)) p hpf
    rw [hpre] at h1
    rw [hf] at h2
    rw [h2]
    exact h1
  · rw [run_of_glob c fl ctx w _ ht hg, runLoop_append_ok c fl ctx pre (f :: post) 0 _ s1 hpre]
    exact runLoop_cons_failed c fl ctx _ f post s1 s2 err (hc _) hf
  · have h := processFile_opened c fl f (s1.record (.ctxErr false))
    rw [hf] at h
    simp only [State.record, opened_append] at h
    rw [h, hop1]
    simp [opened]
  · rcases processFile_error c fl f _ s2 err hf with ⟨o, ho, he, hs2⟩ | ⟨tag, sv, _, hd, _, he, htr⟩
    · left
      refine ⟨o, ho, he, ?_, ?_, ?_⟩
      · rw [hs2]; rfl
      · rw [hs2]; simp [State.record]
      · rw [hs2]
        simp only [State.record, saved_append, hsv1]
        simp [saved]
    · right
      refine ⟨sv, hd, he, ?_, ?_⟩
      · rw [htr]; simp [State.record, iterTrace]
      · rw [htr]
        simp only [State.record, saved_append, hsv1, saved_fileTrace, hd]
        simp [saved]

theorem first_failure_halts_witness :
    run memCodec (flagsArtist "X") ctxLive memThree =
        (some (Errorf "process file: "
          (Errorf "open file tag: " (Error.errorString "unsupported version of ID3 tag"))),
          { world := memWrite memThree ⟨"a.mp3", "X", "LP A"⟩,
            trace := [Event.glob "*", Event.ctxErr false, Event.openTag "a.mp3",
              Event.setArtist "a.mp3" "X", Event.save "a.mp3", Event.ctxErr false,
              Event.openTag "b.mp3"] }) ∧
      opened [Event.glob "*", Event.ctxErr false, Event.openTag "a.mp3",
          Event.setArtist "a.mp3" "X", Event.save "a.mp3", Event.ctxErr false,
          Event.openTag "b.mp3"] = ["a.mp3"] ++ ["b.mp3"] :=
  ⟨(first_failure_halts memCodec (flagsArtist "X") ctxLive memThree ["a.mp3"] "b.mp3"
      ["c.mp3"]
      { world := memWrite memThree ⟨"a.mp3", "X", "LP A"⟩,
        trace := [Event.glob "*", Event.ctxErr false, Event.openTag "a.mp3",
          Event.setArtist "a.mp3" "X", Event.save "a.mp3"] }
      { world := memWrite memThree ⟨"a.mp3", "X", "LP A"⟩,
        trace := [Event.glob "*", Event.ctxErr false, Event.openTag "a.mp3",
          Event.setArtist "a.mp3" "X", Event.save "a.mp3", Event.ctxErr false,
          Event.openTag "b.mp3"] }
      (Errorf "open file tag: " (Error.errorString "unsupported version of ID3 tag"))
      (by decide) rfl (fun _ => rfl) rfl rfl).1,
    (first_failure_halts memCodec (flagsArtist "X") ctxLive memThree ["a.mp3"] "b.mp3"
      ["c.mp3"]
      { world := memWrite memThree ⟨"a.mp3", "X", "LP A"⟩,
        trace := [Event.glob "*", Event.ctxErr false, Event.openTag "a.mp3",
          Event.setArtist "a.mp3" "X", Event.save "a.mp3"] }
      { world := memWrite memThree ⟨"a.mp3", "X", "LP A"⟩,
        trace := [Event.glob "*", Event.ctxErr false, Event.openTag "a.mp3",
          Event.setArtist "a.mp3" "X", Event.save "a.mp3", Event.ctxErr false,
          Event.openTag "b.mp3"] }
      (Errorf "open file tag: " (Error.errorString "unsupported version of ID3 tag"))
      (by decide) rfl (fun _ => rfl) rfl rfl).2.2.1⟩

theorem polls_append (a b : List Event) : polls (a ++ b) = polls a ++ polls b := by
  simp [polls, List.filterMap_append]

theorem polls_fileTrace (fl : Flags) (t : String) : polls (fileTrace fl t) = [] := by
  unfold fileTrace overrideTrace
  cases isFlagSet fl "artist" <;> cases isFlagSet fl "album" <;> cases fl.dryFlag <;>
    simp [polls]

/-- The handler itself never polls the context. -/
theorem processFile_polls (c : Codec W Tag) (fl : Flags) (target : String) (s : State W) :
    polls (processFile c fl target s).2.trace = polls s.trace := by
  rcases ho : c.Open s.world target with o | tag
  · rw [processFile_open_error c fl target s o ho]
    simp [State.record, polls]
  · rw [processFile_open_ok_trace c fl target s tag ho, polls_append, polls_fileTrace]
    simp

theorem runLoop_polls_extend (c : Codec W Tag) (fl : Flags) (ctx : Nat → Option Error)
    (files : List String) (k : Nat) (s : State W) :
    ∃ x, polls (runLoop c fl ctx k files s).2.trace = polls s.trace ++ x := by
  induction files generalizing k s with
  | nil => exact ⟨[], by simp [runLoop]⟩
  | cons g gs ih =>
    have hpo := processFile_polls c fl g (s.record (.ctxErr false))
    rcases hc : ctx k with _ | e
    · rcases hp : processFile c fl g (s.record (.ctxErr false)) with ⟨_ | err, s2⟩
      · rw [runLoop_cons_ok c fl ctx k g gs s s2 hc hp]
        obtain ⟨x, hx⟩ := ih (k + 1) s2
        rw [hp] at hpo
        refine ⟨false :: x, ?_⟩
        rw [hx, hpo]
        simp [State.record, polls]
      · rw [runLoop_cons_failed c fl ctx k g gs s s2 err hc hp]
        rw [hp] at hpo
        refine ⟨[false], ?_⟩
        simp only
        rw [hpo]
        simp [State.record, polls]
    · rw [runLoop_cons_cancelled c fl ctx k g gs s e hc]
      exact ⟨[true], by simp [State.record, polls]⟩

/-- A loop whose polls were `n` times nil and then once cancelled got through
its first `n` files and returned the context's error at the poll before the
next one. -/
theorem runLoop_observed (c : Codec W Tag) (fl : Flags) (ctx : Nat → Option Error)
    (files : List String) (k : Nat) (s : State W) (n : Nat)
    (h : polls (runLoop c fl ctx k files s).2.trace =
      polls s.trace ++ (List.replicate n false ++ [true])) :
    n < files.length ∧ ∃ s1 e, runLoop c fl ctx k (files.take n) s = (none, s1) ∧
      ctx (k + n) = some e ∧
      runLoop c fl ctx k files s = (some e, s1.record (.ctxErr true)) := by
  induction files generalizing k s n with
  | nil =>
    exfalso
    simp only [runLoop] at h
    have := congrArg List.length h
    simp at this
  | cons g gs ih =>
    have hpo := processFile_polls c fl g (s.record (.ctxErr false))
    rcases hc : ctx k with _ | e
    · rcases hp : processFile c fl g (s.record (.ctxErr false)) with ⟨_ | err, s2⟩
      · rw [hp] at hpo
        have hs2 : polls s2.trace = polls s.trace ++ [false] := by
          rw [hpo]
          simp [State.record, polls]
        rw [runLoop_cons_ok c fl ctx k g gs s s2 hc hp] at h ⊢
        obtain ⟨x, hx⟩ := runLoop_polls_extend c fl ctx gs (k + 1) s2
        cases n with
        | zero =>
          exfalso
          rw [hx, hs2, List.append_assoc] at h
          have h2 := List.append_cancel_left h
          simp at h2
        | succ m =>
          have h3 : polls (runLoop c fl ctx (k + 1) gs s2).2.trace =
              polls s2.trace ++ (List.replicate m false ++ [true]) := by
            rw [h, hs2]
            simp [List.replicate_succ]
          obtain ⟨hlt, s1, e, hpre, hk, hrun⟩ := ih (k + 1) s2 m h3
          refine ⟨by simpa using hlt, s1, e, ?_, ?_, hrun⟩
          · rw [List.take_succ_cons, runLoop_cons_ok c fl ctx k g _ s s2 hc hp]
            exact hpre
          · rw [← hk]
            congr 1
            omega
      · exfalso
        rw [runLoop_cons_failed c fl ctx k g gs s s2 err hc hp] at h
        rw [hp] at hpo
        simp only at h
        rw [hpo] at h
        simp only [State.record, polls_append] at h
        have h2 := List.append_cancel_left h
        cases n with
        | zero => simp [polls] at h2
        | succ m =>
          have := congrArg List.length h2
          simp [polls] at this
    · rw [runLoop_cons_cancelled c fl ctx k g gs s e hc] at h ⊢
      simp only [State.record, polls_append] at h
      have h2 := List.append_cancel_left h
      cases n with
      | zero =>
        refine ⟨by simp, s, e, by simp [runLoop], by simpa using hc, rfl⟩
      | succ m =>
        exfalso
        simp [polls, List.replicate_succ] at h2

theorem polls_bind_iterTrace (fl : Flags) (files : List String) :
    polls (files.flatMap (iterTrace fl)) = List.replicate files.length false := by
  induction files with
  | nil => rfl
  | cons f fs ih =>
    rw [List.flatMap_cons, polls_append, ih]
    unfold iterTrace
    rw [show ∀ (e : Event) (l : List Event), e :: l = [e] ++ l from fun _ _ => rfl,
      polls_append, polls_fileTrace]
    simp [polls, List.replicate_succ]

/-- C6: the context is polled once before each file and not during one. When
the context's error is `e` at the poll before the file at index `pre.length`
of the matched files, and the loop got through the files `pre` before that
index (so that this poll is the first to find the context cancelled), `run`
returns `e`, the context's own error; every earlier poll found nil; the calls
made are the glob expansion, one complete iteration (poll, open, setters,
save unless dry-run) for each file of `pre` in order, and that last poll, so
the polls recorded are `pre.length` times nil and then once cancelled;
exactly the files of `pre` were opened, and saved unless dry-run, and the
file at that index and all later ones are neither opened nor saved: the
filesystem is the one the last file of `pre` left. -/
theorem cancellation_stops_before_file (c : Codec W Tag) (fl : Flags)
    (ctx : Nat → Option Error) (w : W)
    (pre : List String) (f : String) (post : List String) (s1 : State W) (e : Error)
    (ht : fl.targetFlag ≠ "")
    (hg : c.Glob w fl.targetFlag = .ok (pre ++ f :: post))
    (hpre : runLoop c fl ctx 0 pre (loopStart fl w) = (none, s1))
    (hk : ctx pre.length = some e) :
    run c fl ctx w = (some e, s1.record (.ctxErr true)) ∧
      (run c fl ctx w).2.world = s1.world ∧
      (∀ j, j < pre.length → ctx j = none) ∧
      (run c fl ctx w).2.trace =
        Event.glob fl.targetFlag :: (pre.flatMap (iterTrace fl) ++ [Event.ctxErr true]) ∧
      polls (run c fl ctx w).2.trace = List.replicate pre.length false ++ [true] ∧
      opened (run c fl ctx w).2.trace = pre ∧
      saved (run c fl ctx w).2.trace = (if fl.dryFlag then [] else pre) := by
  obtain ⟨htr, hctx⟩ := runLoop_ok c fl ctx pre 0 (loopStart fl w) s1 hpre
  have hrun : run c fl ctx w = (some e, s1.record (.ctxErr true)) := by
    rw [run_of_glob c fl ctx w _ ht hg, runLoop_append_ok c fl ctx pre (f :: post) 0 _ s1 hpre]
    exact runLoop_cons_cancelled c fl ctx _ f post s1 e (by simpa using hk)
  have hs1 : (s1.record (.ctxErr true)).trace =
      [Event.glob fl.targetFlag] ++ (pre.flatMap (iterTrace fl) ++ [Event.ctxErr true]) := by
    simp [State.record, htr, loopStart]
  rw [hrun]
  refine ⟨rfl, rfl, ?_, hs1, ?_, ?_, ?_⟩
  · intro j hj
    simpa using hctx j hj
  · simp only
    rw [hs1, polls_append, polls_append, polls_bind_iterTrace]
    simp [polls]
  · simp only
    rw [hs1, opened_append, opened_append, opened_bind_iterTrace]
    simp [opened]
  · simp only
    rw [hs1, saved_append, saved_append, saved_bind_iterTrace]
    split <;> simp [saved]

theorem cancellation_stops_before_file_witness :
    ctxCancelledFrom 1 ["a.mp3"].length = some (Error.errorString "context canceled") ∧
      run memCodec (flagsArtist "X") (ctxCancelledFrom 1) memTwo =
        (some (Error.errorString "context canceled"),
          { world := memWrite memTwo ⟨"a.mp3", "X", "LP A"⟩,
            trace := [Event.glob "*", Event.ctxErr false, Event.openTag "a.mp3",
              Event.setArtist "a.mp3" "X", Event.save "a.mp3", Event.ctxErr true] }) ∧
      opened (run memCodec (flagsArtist "X") (ctxCancelledFrom 1) memTwo).2.trace = ["a.mp3"] ∧
      saved (run memCodec (flagsArtist "X") (ctxCancelledFrom 1) memTwo).2.trace =
        (if (flagsArtist "X").dryFlag then [] else ["a.mp3"]) :=
  ⟨rfl,
    (cancellation_stops_before_file memCodec (flagsArtist "X") (ctxCancelledFrom 1) memTwo
      ["a.mp3"] "b.mp3" []
      { world := memWrite memTwo ⟨"a.mp3", "X", "LP A"⟩,
        trace := [Event.glob "*", Event.ctxErr false, Event.openTag "a.mp3",
          Event.setArtist "a.mp3" "X", Event.save "a.mp3"] }
      (Error.errorString "context canceled") (by decide) rfl rfl rfl).1,
    (cancellation_stops_before_file memCodec (flagsArtist "X") (ctxCancelledFrom 1) memTwo
      ["a.mp3"] "b.mp3" []
      { world := memWrite memTwo ⟨"a.mp3", "X", "LP A"⟩,
        trace := [Event.glob "*", Event.ctxErr false, Event.openTag "a.mp3",
          Event.setArtist "a.mp3" "X", Event.save "a.mp3"] }
      (Error.errorString "context canceled") (by decide) rfl rfl rfl).2.2.2.2.2.1,
    (cancellation_stops_before_file memCodec (flagsArtist "X") (ctxCancelledFrom 1) memTwo
      ["a.mp3"] "b.mp3" []
      { world := memWrite memTwo ⟨"a.mp3", "X", "LP A"⟩,
        trace := [Event.glob "*", Event.ctxErr false, Event.openTag "a.mp3",
          Event.setArtist "a.mp3" "X", Event.save "a.mp3"] }
      (Error.errorString "context canceled") (by decide) rfl rfl rfl).2.2.2.2.2.2⟩

/-! ## Errors returned by `run` -/

theorem Errorf_message (pre : String) (e : Error) :
    (Errorf pre e).message = pre ++ e.message ∧ (Errorf pre e).Unwrap = some e :=
  ⟨rfl, rfl⟩

theorem runLoop_error (c : Codec W Tag) (fl : Flags) (ctx : Nat → Option Error)
    (files : List String) (k : Nat) (s : State W) (e : Error)
    (h : (runLoop c fl ctx k files s).1 = some e) :
    (∃ w1 file o, c.Open w1 file = .error o ∧
      e = Errorf "process file: " (Errorf "open file tag: " o)) ∨
    (∃ w1 t sv, (c.Save w1 t).2 = some sv ∧
      e = Errorf "process file: " (Errorf "save file: " sv)) ∨
    (∃ j, ctx j = some e) := by
  induction files generalizing k s with
  | nil => simp [runLoop] at h
  | cons f fs ih =>
    rcases hc : ctx k with _ | e1
    · rcases hp : processFile c fl f (s.record (.ctxErr false)) with ⟨_ | err, s2⟩
      · rw [runLoop_cons_ok c fl ctx k f fs s s2 hc hp] at h
        exact ih (k + 1) s2 h
      · rw [runLoop_cons_failed c fl ctx k f fs s s2 err hc hp] at h
        simp only [Option.some.injEq] at h
        rcases processFile_error c fl f _ s2 err hp with ⟨o, ho, he, _⟩ | ⟨tag, sv, _, _, hs, he, _⟩
        · left
          exact ⟨_, f, o, ho, by rw [← h, he]⟩
        · right; left
          exact ⟨_, _, sv, hs, by rw [← h, he]⟩
    · rw [runLoop_cons_cancelled c fl ctx k f fs s e1 hc] at h
      simp only [Option.some.injEq] at h
      right; right
      exact ⟨k, by rw [hc, h]⟩

/-- C9, as amended: an error returned by `run` is one of five. A glob failure
`g` comes back as `list files: g`, a failure `o` to open or parse a file as
`process file: open file tag: o`, a save failure `sv` as
`process file: save file: sv`, each with the underlying error kept inside the
wrapper; the empty-target error is the new error `target is required`; and
the cancellation error is the context's own error, returned as it is, with no
wrapper. -/
theorem run_error_shape (c : Codec W Tag) (fl : Flags) (ctx : Nat → Option Error) (w : W)
    (e : Error) (h : (run c fl ctx w).1 = some e) :
    (fl.targetFlag = "" ∧ e = Error.errorString "target is required") ∨
    (∃ g, c.Glob w fl.targetFlag = .error g ∧ e = Errorf "list files: " g ∧
      e.message = "list files: " ++ g.message ∧ e.Unwrap = some g) ∨
    (∃ w1 file o, c.Open w1 file = .error o ∧
      e = Errorf "process file: " (Errorf "open file tag: " o) ∧
      e.message = "process file: open file tag: " ++ o.message ∧
      (e.Unwrap.bind Error.Unwrap) = some o) ∨
    (∃ w1 t sv, (c.Save w1 t).2 = some sv ∧
      e = Errorf "process file: " (Errorf "save file: " sv) ∧
      e.message = "process file: save file: " ++ sv.message ∧
      (e.Unwrap.bind Error.Unwrap) = some sv) ∨
    (∃ j, ctx j = some e) := by
  by_cases ht : fl.targetFlag = ""
  · left
    rw [run_of_empty c fl ctx w ht] at h
    simp only [Option.some.injEq] at h
    exact ⟨ht, h.symm⟩
  · right
    rcases hg : c.Glob w fl.targetFlag with g | files
    · left
      unfold run at h
      rw [if_neg ht, hg] at h
      simp only [Option.some.injEq] at h
      exact ⟨g, rfl, h.symm, by rw [← h]; rfl, by rw [← h]; rfl⟩
    · right
      rw [run_of_glob c fl ctx w files ht hg] at h
      rcases runLoop_error c fl ctx files 0 _ e h with ⟨w1, file, o, ho, he⟩ | ⟨w1, t, sv, hs, he⟩ | hj
      · left
        refine ⟨w1, file, o, ho, he, ?_, by rw [he]; rfl⟩
        rw [he]
        show "process file: " ++ ("open file tag: " ++ o.message) = _
        rw [← String.append_assoc]
        rfl
      · right; left
        refine ⟨w1, t, sv, hs, he, ?_, by rw [he]; rfl⟩
        rw [he]
        show "process file: " ++ ("save file: " ++ sv.message) = _
        rw [← String.append_assoc]
        rfl
      · right; right
        exact hj

theorem run_error_shape_witness :
    (run memCodec (flagsArtist "X") ctxLive memThree).1 =
        some (Errorf "process file: "
          (Errorf "open file tag: " (Error.errorString "unsupported version of ID3 tag"))) ∧
      (((flagsArtist "X").targetFlag = "" ∧
          Errorf "process file: " (Errorf "open file tag: "
            (Error.errorString "unsupported version of ID3 tag")) =
            Error.errorString "target is required") ∨
        (∃ g, memCodec.Glob memThree (flagsArtist "X").targetFlag = .error g ∧
          Errorf "process file: " (Errorf "open file tag: "
            (Error.errorString "unsupported version of ID3 tag")) = Errorf "list files: " g ∧
          (Errorf "process file: " (Errorf "open file tag: "
            (Error.errorString "unsupported version of ID3 tag"))).message =
            "list files: " ++ g.message ∧
          (Errorf "process file: " (Errorf "open file tag: "
            (Error.errorString "unsupported version of ID3 tag"))).Unwrap = some g) ∨
        (∃ w1 file o, memCodec.Open w1 file = .error o ∧
          Errorf "process file: " (Errorf "open file tag: "
            (Error.errorString "unsupported version of ID3 tag")) =
            Errorf "process file: " (Errorf "open file tag: " o) ∧
          (Errorf "process file: " (Errorf "open file tag: "
            (Error.errorString "unsupported version of ID3 tag"))).message =
            "process file: open file tag: " ++ o.message ∧
          ((Errorf "process file: " (Errorf "open file tag: "
            (Error.errorString "unsupported version of ID3 tag"))).Unwrap.bind Error.Unwrap)
            = some o) ∨
        (∃ w1 t sv, (memCodec.Save w1 t).2 = some sv ∧
          Errorf "process file: " (Errorf "open file tag: "
            (Error.errorString "unsupported version of ID3 tag")) =
            Errorf "process file: " (Errorf "save file: " sv) ∧
          (Errorf "process file: " (Errorf "open file tag: "
            (Error.errorString "unsupported version of ID3 tag"))).message =
            "process file: save file: " ++ sv.message ∧
          ((Errorf "process file: " (Errorf "open file tag: "
            (Error.errorString "unsupported version of ID3 tag"))).Unwrap.bind Error.Unwrap)
            = some sv) ∨
        (∃ j, ctxLive j = some (Errorf "process file: " (Errorf "open file tag: "
            (Error.errorString "unsupported version of ID3 tag"))))) :=
  ⟨rfl, run_error_shape memCodec (flagsArtist "X") ctxLive memThree _ rfl⟩

/-- C9 fails for the cancellation error: with the context cancelled before
the first file, `run` returns the context's error itself, `context canceled`,
which wraps nothing and carries no description of a stage. -/
theorem cancellation_error_not_wrapped :
    (run memCodec (flagsArtist "X") (ctxCancelledFrom 0) memTwo).1 = ctxCancelledFrom 0 0 ∧
      (run memCodec (flagsArtist "X") (ctxCancelledFrom 0) memTwo).1 =
        some (Error.errorString "context canceled") ∧
      ((run memCodec (flagsArtist "X") (ctxCancelledFrom 0) memTwo).1.bind Error.Unwrap)
        = none ∧
      ((run memCodec (flagsArtist "X") (ctxCancelledFrom 0) memTwo).1.map Error.message)
        = some "context canceled" := by
  decide

/-! ## The override flags -/

theorem setArtist_mem_fileTrace (fl : Flags) (target p v : String) :
    Event.setArtist p v ∈ fileTrace fl target ↔
      "artist" ∈ fl.actual ∧ p = target ∧ v = fl.artistFlag := by
  rw [← isFlagSet_iff]
  unfold fileTrace overrideTrace
  cases isFlagSet fl "artist" <;> cases isFlagSet fl "album" <;> cases fl.dryFlag <;> simp

theorem setAlbum_mem_fileTrace (fl : Flags) (target p v : String) :
    Event.setAlbum p v ∈ fileTrace fl target ↔
      "album" ∈ fl.actual ∧ p = target ∧ v = fl.albumFlag := by
  rw [← isFlagSet_iff]
  unfold fileTrace overrideTrace
  cases isFlagSet fl "artist" <;> cases isFlagSet fl "album" <;> cases fl.dryFlag <;> simp

/-- C4, as amended: once the tag of the file has opened, `processFile` calls
the artist setter if and only if `artist` is among the flags that were set on
the command line, and the album setter if and only if `album` is; a setter
that is called gets the flag's value, whatever it is (the empty string
included), and a flag that was not set leaves the tag as opened. The tag
handed to `Save` when dry-run is off is the opened tag with exactly those
setters applied. -/
theorem overrides_follow_presence (c : Codec W Tag) (fl : Flags) (target : String) (w : W)
    (tag : Tag) (ho : c.Open w target = .ok tag) :
    ((∃ v, Event.setArtist target v ∈
        (processFile c fl target { world := w, trace := [] }).2.trace) ↔
      "artist" ∈ fl.actual) ∧
    ((∃ v, Event.setAlbum target v ∈
        (processFile c fl target { world := w, trace := [] }).2.trace) ↔
      "album" ∈ fl.actual) ∧
    (∀ p v, Event.setArtist p v ∈
        (processFile c fl target { world := w, trace := [] }).2.trace →
      p = target ∧ v = fl.artistFlag) ∧
    (∀ p v, Event.setAlbum p v ∈
        (processFile c fl target { world := w, trace := [] }).2.trace →
      p = target ∧ v = fl.albumFlag) ∧
    (fl.dryFlag = false →
      (processFile c fl target { world := w, trace := [] }).2.world =
        (c.Save w
          (if "album" ∈ fl.actual then
            c.SetAlbum (if "artist" ∈ fl.actual then c.SetArtist tag fl.artistFlag else tag)
              fl.albumFlag
          else (if "artist" ∈ fl.actual then c.SetArtist tag fl.artistFlag else tag))).1) := by
  have htr := processFile_open_ok_trace c fl target { world := w, trace := [] } tag ho
  simp only [List.nil_append] at htr
  rw [htr]
  refine ⟨?_, ?_, ?_, ?_, ?_⟩
  · constructor
    · rintro ⟨v, hv⟩
      exact ((setArtist_mem_fileTrace fl target target v).1 hv).1
    · intro h
      exact ⟨fl.artistFlag, (setArtist_mem_fileTrace fl target target _).2 ⟨h, rfl, rfl⟩⟩
  · constructor
    · rintro ⟨v, hv⟩
      exact ((setAlbum_mem_fileTrace fl target target v).1 hv).1
    · intro h
      exact ⟨fl.albumFlag, (setAlbum_mem_fileTrace fl target target _).2 ⟨h, rfl, rfl⟩⟩
  · intro p v hv
    exact ((setArtist_mem_fileTrace fl target p v).1 hv).2
  · intro p v hv
    exact ((setAlbum_mem_fileTrace fl target p v).1 hv).2
  · intro hd
    rw [processFile_save c fl target { world := w, trace := [] } tag ho hd, applyOverrides_tag]
    simp only [isFlagSet_iff]

theorem overrides_follow_presence_witness :
    memCodec.Open memTwo "a.mp3" = .ok ⟨"a.mp3", "Old A", "LP A"⟩ ∧
      ((∃ v, Event.setArtist "a.mp3" v ∈
          (processFile memCodec (flagsArtist "") "a.mp3" { world := memTwo, trace := [] }).2.trace)
        ↔ "artist" ∈ (flagsArtist "").actual) ∧
      ((∃ v, Event.setAlbum "a.mp3" v ∈
          (processFile memCodec (flagsArtist "") "a.mp3" { world := memTwo, trace := [] }).2.trace)
        ↔ "album" ∈ (flagsArtist "").actual) ∧
      (processFile memCodec (flagsArtist "") "a.mp3" { world := memTwo, trace := [] }).2.world =
        (memCodec.Save memTwo ⟨"a.mp3", "", "LP A"⟩).1 :=
  ⟨rfl, (overrides_follow_presence memCodec (flagsArtist "") "a.mp3" memTwo _ rfl).1,
    (overrides_follow_presence memCodec (flagsArtist "") "a.mp3" memTwo _ rfl).2.1,
    (overrides_follow_presence memCodec (flagsArtist "") "a.mp3" memTwo _ rfl).2.2.2.2 rfl⟩

/-- C4 fails on a file that does not open: the artist flag was supplied, yet
`processFile` returns at the failed `Open` and its only call is that `Open`,
so the artist setter is not called. -/
theorem setter_skipped_when_open_fails :
    "artist" ∈ (flagsArtist "X").actual ∧ isFlagSet (flagsArtist "X") "artist" = true ∧
      (processFile memCodec (flagsArtist "X") "b.mp3" { world := memThree, trace := [] }).1 =
        some (Errorf "open file tag: " (Error.errorString "unsupported version of ID3 tag")) ∧
      (processFile memCodec (flagsArtist "X") "b.mp3" { world := memThree, trace := [] }).2.trace =
        [Event.openTag "b.mp3"] ∧
      Event.setArtist "b.mp3" "X" ∉
        (processFile memCodec (flagsArtist "X") "b.mp3" { world := memThree, trace := [] }).2.trace := by
  decide

/-! ## The in-memory codec keeps the codec laws -/

theorem memUpdate_path (t : MemTag) (g : MemFile) : (memUpdate t g).path = g.path := by
  unfold memUpdate
  split <;> rfl

theorem memUpdate_other (t : MemTag) (g : MemFile) (h : g.path ≠ t.path) :
    memUpdate t g = g := by
  unfold memUpdate
  rw [if_neg h]

theorem find_memWrite_same (w : List MemFile) (t : MemTag) :
    (memWrite w t).find? (fun g => g.path = t.path) =
      (w.find? (fun g => g.path = t.path)).map (memUpdate t) := by
  induction w with
  | nil => rfl
  | cons g gs ih =>
    unfold memWrite at ih ⊢
    rw [List.map_cons, List.find?_cons, List.find?_cons, memUpdate_path]
    by_cases hg : g.path = t.path
    · simp [hg]
    · simp [hg, ih]

theorem find_memWrite_other (w : List MemFile) (t : MemTag) (p : String) (hp : p ≠ t.path) :
    (memWrite w t).find? (fun g => g.path = p) = w.find? (fun g => g.path = p) := by
  induction w with
  | nil => rfl
  | cons g gs ih =>
    unfold memWrite at ih ⊢
    rw [List.map_cons, List.find?_cons, List.find?_cons, memUpdate_path]
    by_cases hq : g.path = p
    · have hne : g.path ≠ t.path := by rw [hq]; exact hp
      simp [hq, memUpdate_other t g hne]
    · simp [hq, ih]

theorem memOpen_path (w : List MemFile) (p : String) (t : MemTag)
    (h : memOpen w p = .ok t) : t.path = p := by
  unfold memOpen at h
  rcases hf : w.find? (fun g => g.path = p) with _ | g
  · rw [hf] at h
    simp at h
  · rw [hf] at h
    have hgp : g.path = p := by simpa using List.find?_some hf
    cases hc : g.corrupt
    · simp only [hc, Bool.false_eq_true, ↓reduceIte, Except.ok.injEq] at h
      rw [← h]
      exact hgp
    · simp [hc] at h

theorem memSave_cases (w : List MemFile) (t : MemTag) :
    ((∃ g, w.find? (fun g => g.path = t.path) = some g) ∧
        memSave w t = (memWrite w t, none)) ∨
      ((memSave w t).1 = w ∧ ∃ e, (memSave w t).2 = some e) := by
  unfold memSave
  split
  · right
    exact ⟨rfl, _, rfl⟩
  · next g hf =>
    split
    · right
      exact ⟨rfl, _, rfl⟩
    · left
      exact ⟨⟨g, hf⟩, rfl⟩

theorem memSave_open (w : List MemFile) (t : MemTag) (h : (memSave w t).2 = none) :
    ∃ t1, memOpen (memSave w t).1 t.path = .ok t1 ∧ t1.artist = t.artist ∧
      t1.album = t.album := by
  rcases memSave_cases w t with ⟨⟨g, hf⟩, hs⟩ | ⟨_, e, he⟩
  · have hgp : g.path = t.path := by simpa using List.find?_some hf
    rw [hs]
    unfold memOpen
    simp only
    rw [find_memWrite_same, hf]
    simp [memUpdate, hgp]
  · rw [he] at h
    simp at h

theorem memSave_frame (w : List MemFile) (t : MemTag) (p : String) (hp : p ≠ t.path) :
    memOpen (memSave w t).1 p = memOpen w p := by
  rcases memSave_cases w t with ⟨_, hs⟩ | ⟨hw, _⟩
  · rw [hs]
    unfold memOpen
    simp only
    rw [find_memWrite_other w t p hp]
  · rw [hw]

theorem memCodec_lawful : memCodec.Lawful MemTag.path where
  open_file := memOpen_path
  file_setArtist := fun _ _ => rfl
  file_setAlbum := fun _ _ => rfl
  artist_setArtist := fun _ _ => rfl
  album_setArtist := fun _ _ => rfl
  artist_setAlbum := fun _ _ => rfl
  album_setAlbum := fun _ _ => rfl
  save_open := memSave_open
  save_frame := memSave_frame

/-! ## The tags after a successful run -/

theorem applyOverrides_file (c : Codec W Tag) (file : Tag → String) (hl : c.Lawful file)
    (fl : Flags) (target : String) (tag : Tag) (s : State W) :
    file (applyOverrides c fl target tag s).1 = file tag := by
  rw [applyOverrides_tag]
  split <;> split <;> simp [hl.file_setArtist, hl.file_setAlbum]

theorem applyOverrides_artist (c : Codec W Tag) (file : Tag → String) (hl : c.Lawful file)
    (fl : Flags) (target : String) (tag : Tag) (s : State W)
    (ha : isFlagSet fl "artist" = true) :
    c.Artist (applyOverrides c fl target tag s).1 = fl.artistFlag := by
  rw [applyOverrides_tag, ha]
  simp only [if_true]
  split
  · rw [hl.artist_setAlbum, hl.artist_setArtist]
  · exact hl.artist_setArtist _ _

theorem applyOverrides_album (c : Codec W Tag) (file : Tag → String) (hl : c.Lawful file)
    (fl : Flags) (target : String) (tag : Tag) (s : State W)
    (hb : isFlagSet fl "album" = false) :
    c.Album (applyOverrides c fl target tag s).1 = c.Album tag := by
  rw [applyOverrides_tag, hb]
  simp only [Bool.false_eq_true, if_false]
  split
  · exact hl.album_setArtist _ _
  · rfl

/-- One successful `processFile` with the artist requested and dry-run off:
its file ends up updated, and every other file reads as before. -/
theorem processFile_updates (c : Codec W Tag) (file : Tag → String) (hl : c.Lawful file)
    (fl : Flags) (w0 : W) (g : String) (s s1 : State W)
    (hd : fl.dryFlag = false) (ha : isFlagSet fl "artist" = true)
    (hp : processFile c fl g s = (none, s1)) (f : String)
    (hf : Untouched c w0 s.world f ∨ Updated c fl w0 s.world f) :
    (Untouched c w0 s1.world f ∨ Updated c fl w0 s1.world f) ∧
      (Updated c fl w0 s.world f → Updated c fl w0 s1.world f) ∧
      (f = g → Updated c fl w0 s1.world f) := by
  rcases ho : c.Open s.world g with o | tg
  · rw [processFile_open_error c fl g s o ho] at hp
    simp at hp
  · rw [processFile_save c fl g s tg ho hd] at hp
    have h1 := congrArg Prod.fst hp
    have h2 := congrArg Prod.snd hp
    simp only at h1 h2
    have hsv : (c.Save s.world (applyOverrides c fl g tg (s.record (.openTag g))).1).2 = none := by
      rcases hs : (c.Save s.world (applyOverrides c fl g tg (s.record (.openTag g))).1).2
        with _ | sv
      · rfl
      · rw [hs] at h1
        simp at h1
    have hw : s1.world = (c.Save s.world (applyOverrides c fl g tg (s.record (.openTag g))).1).1 := by
      rw [← h2]
    have hfile : file (applyOverrides c fl g tg (s.record (.openTag g))).1 = g := by
      rw [applyOverrides_file c file hl, hl.open_file _ _ _ ho]
    by_cases hfg : f = g
    · subst hfg
      have hup : Updated c fl w0 s1.world f := by
        obtain ⟨t1, hopen, hart, halb⟩ := hl.save_open _ _ hsv
        rw [hfile, ← hw] at hopen
        rw [applyOverrides_artist c file hl fl f tg _ ha] at hart
        rcases hf with hu | ⟨t, t0, hot, hot0, _, halb0⟩
        · refine ⟨t1, tg, hopen, ?_, hart, ?_⟩
          · rw [← hu, ho]
          · intro hb
            rw [halb, applyOverrides_album c file hl fl f tg _ hb]
        · refine ⟨t1, t0, hopen, hot0, hart, ?_⟩
          intro hb
          rw [halb, applyOverrides_album c file hl fl f tg _ hb]
          have : t = tg := by
            rw [ho] at hot
            exact (Except.ok.inj hot).symm
          rw [← this]
          exact halb0 hb
      exact ⟨Or.inr hup, fun _ => hup, fun _ => hup⟩
    · have hfr : c.Open s1.world f = c.Open s.world f := by
        rw [hw]
        exact hl.save_frame _ _ f (by rw [hfile]; exact hfg)
      have hkeep : Updated c fl w0 s.world f → Updated c fl w0 s1.world f := by
        rintro ⟨t, t0, hot, hrest⟩
        exact ⟨t, t0, by rw [hfr, hot], hrest⟩
      refine ⟨?_, hkeep, fun h => absurd h hfg⟩
      rcases hf with hu | hu
      · left
        unfold Untouched at hu ⊢
        rw [hfr, hu]
      · right
        exact hkeep hu

theorem runLoop_updates (c : Codec W Tag) (file : Tag → String) (hl : c.Lawful file)
    (fl : Flags) (ctx : Nat → Option Error) (w0 : W)
    (hd : fl.dryFlag = false) (ha : isFlagSet fl "artist" = true)
    (files : List String) (k : Nat) (s s1 : State W)
    (h : runLoop c fl ctx k files s = (none, s1))
    (hinv : ∀ f, Untouched c w0 s.world f ∨ Updated c fl w0 s.world f) :
    (∀ f, Untouched c w0 s1.world f ∨ Updated c fl w0 s1.world f) ∧
      (∀ f, Updated c fl w0 s.world f → Updated c fl w0 s1.world f) ∧
      (∀ f, f ∈ files → Updated c fl w0 s1.world f) := by
  induction files generalizing k s with
  | nil =>
    rw [runLoop] at h
    have h2 := congrArg Prod.snd h
    simp only at h2
    subst h2
    exact ⟨hinv, fun _ hu => hu, fun _ hf => by simp at hf⟩
  | cons g gs ih =>
    rcases hc : ctx k with _ | e
    · rcases hp : processFile c fl g (s.record (.ctxErr false)) with ⟨_ | err, s2⟩
      · rw [runLoop_cons_ok c fl ctx k g gs s s2 hc hp] at h
        have hstep := fun f =>
          processFile_updates c file hl fl w0 g (s.record (.ctxErr false)) s2 hd ha hp f (hinv f)
        obtain ⟨hinv1, hkeep1, hall1⟩ := ih (k + 1) s2 h (fun f => (hstep f).1)
        refine ⟨hinv1, fun f hu => hkeep1 f ((hstep f).2.1 hu), ?_⟩
        intro f hf
        rcases List.mem_cons.1 hf with hfg | hfgs
        · exact hkeep1 f ((hstep f).2.2 hfg)
        · exact hall1 f hfgs
      · rw [runLoop_cons_failed c fl ctx k g gs s s2 err hc hp] at h
        simp at h
    · rw [runLoop_cons_cancelled c fl ctx k g gs s e hc] at h
      simp at h

/-- C3, as amended: after a run with dry-run off and `-artist X` supplied that
returns nil, over a codec that keeps the codec laws, every matched file opens
with artist `X`, and when `-album` was not supplied with the album it had
before the run; the exit status is 0. -/
theorem artist_written_on_success (c : Codec W Tag) (file : Tag → String)
    (hl : c.Lawful file) (fl : Flags) (ctx : Nat → Option Error) (w : W)
    (files : List String) (hd : fl.dryFlag = false) (ha : "artist" ∈ fl.actual)
    (hg : c.Glob w fl.targetFlag = .ok files) (hr : (run c fl ctx w).1 = none)
    (f : String) (hf : f ∈ files) :
    main c fl ctx w = 0 ∧
    ∃ t, c.Open (run c fl ctx w).2.world f = .ok t ∧ c.Artist t = fl.artistFlag ∧
      ("album" ∉ fl.actual → ∃ t0, c.Open w f = .ok t0 ∧ c.Album t = c.Album t0) := by
  refine ⟨by unfold main; rw [hr], ?_⟩
  by_cases ht : fl.targetFlag = ""
  · rw [run_of_empty c fl ctx w ht] at hr
    simp at hr
  · rw [run_of_glob c fl ctx w files ht hg] at hr ⊢
    have hall := (runLoop_updates c file hl fl ctx w hd ((isFlagSet_iff fl "artist").2 ha)
      files 0 (loopStart fl w) (runLoop c fl ctx 0 files (loopStart fl w)).2
      (Prod.ext hr rfl) (fun _ => Or.inl rfl)).2.2 f hf
    obtain ⟨t, t0, hot, hot0, hart, halb⟩ := hall
    refine ⟨t, hot, hart, fun hb => ⟨t0, hot0, halb ?_⟩⟩
    cases hset : isFlagSet fl "album"
    · rfl
    · exact absurd ((isFlagSet_iff fl "album").1 hset) hb

theorem artist_written_on_success_witness :
    main memCodec (flagsArtist "New Artist") ctxLive memTwo = 0 ∧
    ∃ t, memCodec.Open (run memCodec (flagsArtist "New Artist") ctxLive memTwo).2.world "b.mp3"
        = .ok t ∧
      memCodec.Artist t = "New Artist" ∧
      ("album" ∉ (flagsArtist "New Artist").actual →
        ∃ t0, memCodec.Open memTwo "b.mp3" = .ok t0 ∧ memCodec.Album t = memCodec.Album t0) :=
  artist_written_on_success memCodec MemTag.path memCodec_lawful (flagsArtist "New Artist")
    ctxLive memTwo ["a.mp3", "b.mp3"] rfl (by decide) rfl rfl "b.mp3" (by decide)

/-- C3 fails on a run that stops early: of three matched files the second does
not parse, the run with `-artist X` and dry-run off returns an error, and the
third matched file still has its old artist afterwards. -/
theorem artist_not_written_after_failure :
    (flagsArtist "X").dryFlag = false ∧ isFlagSet (flagsArtist "X") "artist" = true ∧
      (flagsArtist "X").artistFlag = "X" ∧
      memCodec.Glob memThree (flagsArtist "X").targetFlag = .ok ["a.mp3", "b.mp3", "c.mp3"] ∧
      memCodec.Open (run memCodec (flagsArtist "X") ctxLive memThree).2.world "c.mp3" =
        .ok ⟨"c.mp3", "Old C", "LP C"⟩ ∧
      memCodec.Artist ⟨"c.mp3", "Old C", "LP C"⟩ ≠ "X" :=
  ⟨rfl, rfl, rfl, rfl, rfl, by decide⟩

end Id3v2
